import Mathlib

/-!
Verification development for the portfolio-investment-tracker repository.

Shallow embedding of `src/extractors/portfolio_extractor.py` (value-parsing
utilities, the per-issuer holding constructors, the asset-identity
normalizer `create_asset_key`, and the deduplication engine
`remove_duplicates`) together with the relevant fragment of
`src/utils/currency_converter.py` usage.

Conventions of the embedding:
* Python `float` money values are modelled as `ℚ` (all operations the code
  performs on them - `*`, `-`, `/`, comparisons - are exact on the inputs at
  issue, so `ℚ` is faithful for these properties);
* a PDF table cell (`Optional[str]`) is `Option String`;
* `try/except`-guarded parsing is modelled by `Option`-returning total
  functions;
* `dict` field mutation on a copy of `standard_schema` is modelled by
  constructing a `Holding` record whose defaults are the schema defaults.
-/

/-! ## Python character/string primitives -/

/-- Python `\s` (ASCII whitespace as used by `re` on the inputs at issue). -/
def pyIsSpace (c : Char) : Bool :=
  c = ' ' || c = '\t' || c = '\n' || c = '\x0d' || c = '\x0b' || c = '\x0c'

/-- Python `\d` (ASCII decimal digit). -/
def pyIsDigit (c : Char) : Bool :=
  '0' ≤ c && c ≤ '9'

/-- Python `[A-Z]`. -/
def pyIsUpperAZ (c : Char) : Bool :=
  'A' ≤ c && c ≤ 'Z'

/-- Python `\w` (ASCII word character). -/
def pyIsWord (c : Char) : Bool :=
  c.isAlpha || pyIsDigit c || c = '_'

/-- Python `str.strip()` on a character list. -/
def pyStripList (cs : List Char) : List Char :=
  ((cs.dropWhile pyIsSpace).reverse.dropWhile pyIsSpace).reverse

/-- Python `str.strip()`. -/
def pyStrip (s : String) : String :=
  (pyStripList s.toList).asString

/-- Python `str.upper()` (ASCII, which covers every asset name at issue). -/
def pyUpper (s : String) : String :=
  s.map Char.toUpper

/-- Python `str.zfill(2)` as used on day/month fragments. -/
def pyZfill2 (s : String) : String :=
  if s.length < 2 then "0" ++ s else s

/-- Substring test, Python `needle in haystack`. -/
def strContainsSub (hay needle : String) : Bool :=
  let rec go : List Char → Bool
    | [] => needle.toList.isPrefixOf []
    | c :: cs => needle.toList.isPrefixOf (c :: cs) || go cs
  go hay.toList

/-- Python `str.startswith`. -/
def pyStartsWith (s pre : String) : Bool :=
  pre.toList.isPrefixOf s.toList

/-! ## `PortfolioExtractor.clean_currency_value` (portfolio_extractor.py lines 33-45) -/

/-- Value of a digit list read in base 10. -/
def natOfDigits (cs : List Char) : Nat :=
  cs.foldl (fun a c => a * 10 + (c.toNat - '0'.toNat)) 0

/-- The character class removed by `re.sub(r'[₹$,\s]', '', ...)`. -/
def isCurrencyStripChar (c : Char) : Bool :=
  c = '₹' || c = '$' || c = ',' || pyIsSpace c

/-- `re.sub(r'[₹$,\s]', '', s)`. -/
def stripCurrencyChars (s : String) : String :=
  (s.toList.filter (fun c => !(isCurrencyStripChar c))).asString

/-- Model of Python `float(str)` on the finite-decimal fragment
(`[+-]? digits [. digits] [eE [+-] digits]`); the non-finite literals
(`inf`/`nan`) and underscore separators accepted by CPython are outside the
model's domain (they never arise from the digit-bearing inputs at issue).
Returns `none` where `float()` raises `ValueError`. -/
def pyFloatParse (s : String) : Option ℚ :=
  let cs0 := s.toList
  let signAndRest : ℚ × List Char :=
    match cs0 with
    | '+' :: r => (1, r)
    | '-' :: r => (-1, r)
    | r => (1, r)
  let sign := signAndRest.1
  let cs := signAndRest.2
  let intPart := cs.takeWhile pyIsDigit
  let cs1 := cs.drop intPart.length
  let fracAndRest : List Char × List Char :=
    match cs1 with
    | '.' :: r => (r.takeWhile pyIsDigit, r.drop (r.takeWhile pyIsDigit).length)
    | r => ([], r)
  let fracPart := fracAndRest.1
  let cs2 := fracAndRest.2
  let sawDot : Bool := match cs1 with | '.' :: _ => true | _ => false
  if intPart.isEmpty && (!sawDot || fracPart.isEmpty) then none
  else
    let mantissa : ℚ := (natOfDigits (intPart ++ fracPart) : ℚ) / (10 : ℚ) ^ fracPart.length
    match cs2 with
    | [] => some (sign * mantissa)
    | e :: r =>
      if e = 'e' || e = 'E' then
        let esignAndRest : ℤ × List Char :=
          match r with
          | '+' :: t => (1, t)
          | '-' :: t => (-1, t)
          | t => (1, t)
        let eds := esignAndRest.2.takeWhile pyIsDigit
        if eds.isEmpty || !(esignAndRest.2.drop eds.length).isEmpty then none
        else some (sign * mantissa * (10 : ℚ) ^ (esignAndRest.1 * (natOfDigits eds : ℤ)))
      else none

/-- `PortfolioExtractor.clean_currency_value`: early-returns `0.0` on
empty/placeholder input, strips `₹ $ , \s`, then `float(...)` with
`ValueError` mapped to `0.0`.  Total by construction (never raises). -/
def clean_currency_value (s : String) : ℚ :=
  if s = "" || pyStrip s = "-" || pyStrip s = "" then 0
  else (pyFloatParse (stripCurrencyChars s)).getD 0

/-- `clean_currency_value` applied to a possibly-`None` cell guarded by
`pd.isna` (a `None` cell is NA, hence `0.0`). -/
def cleanCell (c : Option String) : ℚ :=
  match c with
  | none => 0
  | some s => clean_currency_value s

/-! ## `PortfolioExtractor.parse_date` (lines 47-80) -/

/-- Generic leftmost-match scanner, the `re.search` driver: try the matcher
at every start position, left to right. -/
def searchScan {α : Type} (f : List Char → Option α) : List Char → Option α
  | [] => f []
  | c :: cs =>
    match f (c :: cs) with
    | some r => some r
    | none => searchScan f cs

/-- Match of `(\d{2})/(\d{2})/(\d{4})` anchored at the head. -/
def dmySlashAt (cs : List Char) : Option (String × String × String) :=
  match cs with
  | a :: b :: '/' :: c :: d :: '/' :: e :: f :: g :: h :: _ =>
    if pyIsDigit a && pyIsDigit b && pyIsDigit c && pyIsDigit d &&
       pyIsDigit e && pyIsDigit f && pyIsDigit g && pyIsDigit h then
      some ([a, b].asString, [c, d].asString, [e, f, g, h].asString)
    else none
  | _ => none

/-- Match of `(\d{1,2})\s+(\w+)\s+(\d{4})` anchored at the head (greedy runs
are exact here because `\d`, `\s`, `\w` interact with no useful backtracking
on these shapes). -/
def dMonYAt (cs : List Char) : Option (String × String × String) :=
  let drun := cs.takeWhile pyIsDigit
  if drun.length = 0 || 2 < drun.length then none
  else
    let r1 := cs.drop drun.length
    let sp1 := r1.takeWhile pyIsSpace
    if sp1.isEmpty then none
    else
      let r2 := r1.drop sp1.length
      let wd := r2.takeWhile pyIsWord
      if wd.isEmpty then none
      else
        let r3 := r2.drop wd.length
        let sp2 := r3.takeWhile pyIsSpace
        if sp2.isEmpty then none
        else
          let r4 := r3.drop sp2.length
          let yd := r4.takeWhile pyIsDigit
          if yd.length < 4 then none
          else some (drun.asString, wd.asString, (yd.take 4).asString)

/-- Match of `(\d{4})-(\d{2})-(\d{2})` anchored at the head. -/
def ymdDashAt (cs : List Char) : Option (String × String × String) :=
  match cs with
  | a :: b :: c :: d :: '-' :: e :: f :: '-' :: g :: h :: _ =>
    if pyIsDigit a && pyIsDigit b && pyIsDigit c && pyIsDigit d &&
       pyIsDigit e && pyIsDigit f && pyIsDigit g && pyIsDigit h then
      some ([a, b, c, d].asString, [e, f].asString, [g, h].asString)
    else none
  | _ => none

/-- The three-letter month lookup used by the date parsers. -/
def monthMap3 : List (String × String) :=
  [("jan", "01"), ("feb", "02"), ("mar", "03"), ("apr", "04"),
   ("may", "05"), ("jun", "06"), ("jul", "07"), ("aug", "08"),
   ("sep", "09"), ("oct", "10"), ("nov", "11"), ("dec", "12")]

/-- Python `str.lower()` (ASCII). -/
def pyLower (s : String) : String :=
  s.map Char.toLower

/-- Python `str.isalpha()` (ASCII fragment). -/
def pyIsAlphaStr (s : String) : Bool :=
  !s.isEmpty && s.toList.all Char.isAlpha

/-- `month_map.get(month.lower()[:3], '01')` applied when the matched month
token is alphabetic, else the token unchanged. -/
def convertMonthToken (m : String) : String :=
  if pyIsAlphaStr m then
    (List.lookup ((pyLower m).toList.take 3).asString monthMap3).getD "01"
  else m

/-- `PortfolioExtractor.parse_date`: tries `DD/MM/YYYY`, `D Month YYYY`,
`YYYY-MM-DD` in that order; on a match containing `-` in the whole input it
returns the first ten characters, otherwise reformats; with no match it
returns the input unchanged. -/
def parse_date (date_str : String) : String :=
  if date_str = "" then ""
  else
    let cs := date_str.toList
    match searchScan dmySlashAt cs with
    | some (d, m, y) =>
      if strContainsSub date_str "-" then (cs.take 10).asString
      else y ++ "-" ++ pyZfill2 m ++ "-" ++ pyZfill2 d
    | none =>
      match searchScan dMonYAt cs with
      | some (d, m, y) =>
        if strContainsSub date_str "-" then (cs.take 10).asString
        else y ++ "-" ++ pyZfill2 (convertMonthToken m) ++ "-" ++ pyZfill2 d
      | none =>
        match searchScan ymdDashAt cs with
        | some (y4, m2, d2) =>
          if strContainsSub date_str "-" then (cs.take 10).asString
          else d2 ++ "-" ++ pyZfill2 m2 ++ "-" ++ pyZfill2 y4
        | none => date_str

/-! ## The Holding Record (`standard_schema`, lines 18-31) -/

/-- One extracted holding; field defaults are the `standard_schema` values.
The `raw_data` debug mapping is not modelled (no embedded logic reads it);
`potential_duplicate` is the extra key attached by the Kotak extractor. -/
structure Holding where
  manager_name : String := ""
  asset_type : String := ""
  asset_name : String := ""
  current_investment_value : ℚ := 0
  current_market_value : ℚ := 0
  value_as_of_date : String := ""
  pl_amount : ℚ := 0
  pl_percentage : ℚ := 0
  irr_percentage : ℚ := 0
  investment_date : String := ""
  potential_duplicate : List String := []
  deriving DecidableEq, Repr

/-- `str(cell).strip() if cell else ''` on a possibly-`None` table cell. -/
def stripCellGuard (c : Option String) : String :=
  match c with
  | none => ""
  | some s => if s = "" then "" else pyStrip s

/-! ## `INDMoneyExtractor` (lines 82-309) -/

/-- Match of `([A-Z]+)\s*-\s*(\d{4})` anchored at the head. -/
def monthYearAt (cs : List Char) : Option (String × String) :=
  let letters := cs.takeWhile pyIsUpperAZ
  if letters.isEmpty then none
  else
    let r := cs.drop letters.length
    let r2 := r.dropWhile pyIsSpace
    match r2 with
    | '-' :: r3 =>
      let r4 := r3.dropWhile pyIsSpace
      let ds := r4.takeWhile pyIsDigit
      if 4 ≤ ds.length then some (letters.asString, (ds.take 4).asString) else none
    | _ => none

/-- The full month-name lookup used by `parse_date_from_period`. -/
def monthMapFull : List (String × String) :=
  [("JANUARY", "01"), ("FEBRUARY", "02"), ("MARCH", "03"), ("APRIL", "04"),
   ("MAY", "05"), ("JUNE", "06"), ("JULY", "07"), ("AUGUST", "08"),
   ("SEPTEMBER", "09"), ("OCTOBER", "10"), ("NOVEMBER", "11"), ("DECEMBER", "12")]

/-- `INDMoneyExtractor.parse_date_from_period` (lines 93-123): extracts a
month-year pattern from a period string such as `AUGUST - 2025` and returns
the last day of that month in `YYYY-MM-DD` form, or `''` on no match. -/
def parse_date_from_period (period_str : String) : String :=
  if period_str = "" then ""
  else
    match searchScan monthYearAt (pyUpper period_str).toList with
    | none => ""
    | some (month_name, year) =>
      let month_num := (List.lookup month_name monthMapFull).getD "12"
      let day :=
        if month_num = "01" || month_num = "03" || month_num = "05" || month_num = "07" ||
           month_num = "08" || month_num = "10" || month_num = "12" then "31"
        else if month_num = "04" || month_num = "06" || month_num = "09" || month_num = "11" then "30"
        else "28"
      year ++ "-" ++ month_num ++ "-" ++ day

/-- The column scan of `INDMoneyExtractor.extract` lines 266-276: walks the
row cells with their indices, preferring column 4 for the USD market value
and column 7 for the USD cost basis. -/
def indScan : List (Option String) → Nat → ℚ × ℚ → ℚ × ℚ
  | [], _, st => st
  | c :: t, i, (mv, cb) =>
    match c with
    | none => indScan t (i + 1) (mv, cb)
    | some cell =>
      if cell = "" then indScan t (i + 1) (mv, cb)
      else
        let v := clean_currency_value cell
        let mv2 := if 100 < v ∧ 3 ≤ i ∧ (mv = 0 ∨ i = 4) then v else mv
        let cb2 := if 100 < v ∧ 6 ≤ i ∧ (cb = 0 ∨ i = 7) then v else cb
        indScan t (i + 1) (mv2, cb2)

/-- One data-row step of `INDMoneyExtractor.extract` (lines 240-299): skip
rules, USD column scan, INR conversion by `exchange_rate`, P&L recomputation
and the `current_market_value > 0` acceptance gate. -/
def indmoneyProcessRow (row : List (Option String)) (exchange_rate : ℚ)
    (report_date : String) (holding_dates : List (String × String)) : Option Holding :=
  if row.length < 5 then none
  else
    let symbol := stripCellGuard (row.getD 0 none)
    let description := stripCellGuard (row.getD 1 none)
    if symbol = "" ∨ pyStartsWith symbol "*" = true ∨ symbol = "Symbol" ∨
       symbol = "Total" ∨ symbol = "Grand Total" then none
    else
      let st := indScan row 0 (0, 0)
      let market_value_usd := st.1
      let cost_basis_usd := st.2
      let mv := market_value_usd * exchange_rate
      let iv := cost_basis_usd * exchange_rate
      let pl := mv - iv
      let plp := if 0 < iv then pl / iv * 100 else 0
      if 0 < mv then
        some { manager_name := "IND Money"
               asset_type := "US Stocks"
               asset_name := symbol ++ " - " ++ (description.toList.take 30).asString
               value_as_of_date := report_date
               investment_date := (List.lookup symbol holding_dates).getD ""
               current_investment_value := iv
               current_market_value := mv
               pl_amount := pl
               pl_percentage := plp }
      else none

/-! ## `ClientAssociatesExtractor` (lines 311-592) -/

/-- The text-path holding constructor of `ClientAssociatesExtractor.extract`
(lines 391-513): given the fund line's parsed context and the converted
numeric values, assigns Total Cost (position 2), Market Value (position 4),
recomputed P&L, IRR (position 8), and applies the `> 1000` gates.
`dateIndexPos` is the `date_index > 0` guard of line 406. -/
def caTextHolding (fund_name report_date investment_date : String)
    (dateIndexPos : Bool) (vals : List ℚ) : Option Holding :=
  let assigned := dateIndexPos = true ∧ 5 ≤ vals.length
  let total_cost := if assigned then vals.getD 2 0 else 0
  let market_value := if assigned then vals.getD 4 0 else 0
  let pl_amount := if assigned then market_value - total_cost else 0
  let pl_percentage :=
    if assigned ∧ 0 < total_cost then (market_value - total_cost) / total_cost * 100 else 0
  let irr_percentage := if assigned ∧ 8 < vals.length then vals.getD 8 0 else 0
  if 1000 < total_cost ∧ 1000 < market_value then
    some { manager_name := "Client Associates"
           asset_type := "AIF"
           asset_name := fund_name
           value_as_of_date := report_date
           investment_date := investment_date
           current_investment_value := total_cost
           current_market_value := market_value
           pl_amount := pl_amount
           pl_percentage := pl_percentage
           irr_percentage := irr_percentage }
  else none

/-- `str(cell)` on a possibly-`None` cell (Python renders `None` as the
string `None`). -/
def cellStr (c : Option String) : String :=
  match c with
  | none => "None"
  | some s => s

/-- The table-path (backup) holding constructor of
`ClientAssociatesExtractor.extract` (lines 533-581): reads Total Cost from
column 6, Market Value from column 8, and copies `pl_amount`/`pl_percentage`
verbatim from columns 10 and 11; `existing` is the list of holdings already
collected, used only by the near-duplicate suppression check. -/
def caTableRow (report_date : String) (existing : List Holding)
    (row : List (Option String)) : Option Holding :=
  if row.length < 8 then none
  else
    let security_name := stripCellGuard (row.getD 0 none)
    if security_name = "" ∨ security_name = "Security" ∨ security_name = "Equity" ∨
       security_name = "Debt" ∨ security_name = "-" ∨ security_name = "Equity - Total" ∨
       strContainsSub security_name "Date" = true then none
    else if ¬ (strContainsSub security_name "Fund" = true ∨
               strContainsSub security_name "AIF" = true ∨
               strContainsSub security_name "Alpha" = true ∨
               strContainsSub security_name "Growth" = true) then none
    else
      let investment_date := if 1 < row.length then parse_date (cellStr (row.getD 1 none)) else ""
      let total_cost := if 6 < row.length then cleanCell (row.getD 6 none) else 0
      let market_value := if 8 < row.length then cleanCell (row.getD 8 none) else 0
      let pl_amount := if 10 < row.length then cleanCell (row.getD 10 none) else 0
      let pl_percentage := if 11 < row.length then cleanCell (row.getD 11 none) else 0
      if 1000 < total_cost ∧ 1000 < market_value then
        if existing.any (fun h =>
            h.asset_name == security_name && decide (|h.current_investment_value - total_cost| < 1000)) then
          none
        else
          some { manager_name := "Client Associates"
                 asset_type := "AIF"
                 asset_name := security_name
                 value_as_of_date := report_date
                 investment_date := investment_date
                 current_investment_value := total_cost
                 current_market_value := market_value
                 pl_amount := pl_amount
                 pl_percentage := pl_percentage }
      else none

/-! ## `YesBankExtractor` (lines 594-819) -/

/-- `YesBankExtractor._classify_asset_type` (lines 808-819). -/
def ybClassifyAssetType (category fund_name : String) : String :=
  if strContainsSub category "Index" || strContainsSub (pyUpper fund_name) "INDEX" ||
     strContainsSub category "ETF" then "Index Funds/ETFs"
  else if strContainsSub category "Equity" then "Equity Mutual Funds"
  else if strContainsSub category "Debt" then "Debt Mutual Funds"
  else if strContainsSub category "Hybrid" then "Hybrid Mutual Funds"
  else "Mutual Funds"

/-- The per-fund holding constructor of the individual-funds path of
`YesBankExtractor.extract` (lines 719-740): `> 1000` gates on both values
and recomputed P&L. -/
def ybIndividualHolding (category fund_name report_date : String)
    (investment current : ℚ) : Option Holding :=
  if 1000 < investment ∧ 1000 < current then
    some { manager_name := "Yes Bank"
           asset_type := ybClassifyAssetType category fund_name
           asset_name := fund_name
           value_as_of_date := report_date
           current_investment_value := investment
           current_market_value := current
           pl_amount := current - investment
           pl_percentage := if 0 < investment then (current - investment) / investment * 100 else 0 }
  else none

/-- The simple-case holding constructor of `YesBankExtractor.extract`
(lines 759-789): parses the two cell strings of the financial-data row and
applies the `> 1000` gates and the non-empty fund-name gate. -/
def ybSimpleHolding (category fund_name report_date : String)
    (investment_str current_value_str : String) : Option Holding :=
  let investment_amount := clean_currency_value investment_str
  let current_value := clean_currency_value current_value_str
  if 1000 < investment_amount ∧ 1000 < current_value ∧ fund_name ≠ "" then
    some { manager_name := "Yes Bank"
           asset_type := ybClassifyAssetType category fund_name
           asset_name := fund_name
           value_as_of_date := report_date
           current_investment_value := investment_amount
           current_market_value := current_value
           pl_amount := current_value - investment_amount
           pl_percentage :=
             if 0 < investment_amount then
               (current_value - investment_amount) / investment_amount * 100
             else 0 }
  else none

/-! ## `IIFL360OneExtractor` (lines 821-1047) -/

/-- `IIFL360OneExtractor._classify_asset_type` (lines 845-861); note the
argument order of the call site: first the instrument name, then the
page-category context. -/
def iiflClassifyAssetType (instrument_name text_context : String) : String :=
  let instrument_upper := pyUpper instrument_name
  let context_upper := pyUpper text_context
  if strContainsSub instrument_upper "AIF" || strContainsSub context_upper "AIF" then "AIF"
  else if strContainsSub context_upper "UNLISTED" || strContainsSub instrument_upper "UNLISTED" then
    "Unlisted Equity"
  else if strContainsSub context_upper "MANAGED ACCOUNTS" ||
          strContainsSub instrument_upper "DIVERSIFIED ALPHA" then "AIF"
  else if strContainsSub context_upper "EQUITY" || strContainsSub instrument_upper "EQUITY" then
    "Direct Equity"
  else if strContainsSub context_upper "DEBT" || strContainsSub instrument_upper "BOND" then
    "Debt/Bonds"
  else "Other"

/-- The per-line holding constructor of `IIFL360OneExtractor.extract`
(lines 979-1015): quantity from the first numeric value when below 100000,
holding cost and current value as the first two amounts above 100000, the
`> 1000` gates and the non-empty instrument-name gate. -/
def iiflHolding (instrument_name current_category report_date : String)
    (numeric_values : List ℚ) : Option Holding :=
  if 3 ≤ numeric_values.length then
    let large_amounts := numeric_values.filter (fun v => decide (100000 < v))
    let holding_cost := if 2 ≤ large_amounts.length then large_amounts.getD 0 0 else 0
    let current_value := if 2 ≤ large_amounts.length then large_amounts.getD 1 0 else 0
    if 1000 < holding_cost ∧ 1000 < current_value ∧ instrument_name ≠ "" then
      some { manager_name := "IIFL 360 One"
             asset_type := iiflClassifyAssetType instrument_name current_category
             asset_name := ((pyStrip instrument_name).toList.take 100).asString
             value_as_of_date := report_date
             current_investment_value := holding_cost
             current_market_value := current_value
             pl_amount := current_value - holding_cost
             pl_percentage :=
               if 0 < holding_cost then (current_value - holding_cost) / holding_cost * 100
               else 0 }
    else none
  else none

/-! ## `MotilalOswalExtractor` (lines 1391-1599) -/

/-- One data-row step of `MotilalOswalExtractor.extract_direct_equity`
(lines 1430-1468): investment from column 11, market value from column 13,
P&L recomputed from the difference, emitted when market value is positive. -/
def motilalEquityRow (report_date : String) (row : List (Option String)) : Option Holding :=
  if row.length < 10 then none
  else
    let security := stripCellGuard (row.getD 1 none)
    let isin := stripCellGuard (row.getD 2 none)
    if security = "" ∨ strContainsSub security "Total" = true ∨ isin = "" ∨ security = "-" then none
    else
      let iv := if 11 < row.length then cleanCell (row.getD 11 none) else 0
      let mv := if 13 < row.length then cleanCell (row.getD 13 none) else 0
      let pl := mv - iv
      let plp := if 0 < iv then pl / iv * 100 else 0
      if 0 < mv then
        some { manager_name := "Motilal Oswal"
               asset_type := "Direct Equity"
               asset_name := security
               value_as_of_date := report_date
               current_investment_value := iv
               current_market_value := mv
               pl_amount := pl
               pl_percentage := plp }
      else none

/-- One data-row step of `MotilalOswalExtractor.extract_aif_holdings`
(lines 1490-1528): investment from column 5, market value from column 6,
P&L recomputed, emitted when market value is positive. -/
def motilalAifRow (report_date : String) (row : List (Option String)) : Option Holding :=
  if row.length < 8 then none
  else
    let category := stripCellGuard (row.getD 0 none)
    let instrument := stripCellGuard (row.getD 1 none)
    let asset_class := stripCellGuard (row.getD 3 none)
    if instrument = "" ∨ strContainsSub category "Total" = true ∨ asset_class = "" ∨
       instrument = "-" then none
    else
      let iv := if 5 < row.length then cleanCell (row.getD 5 none) else 0
      let mv := if 6 < row.length then cleanCell (row.getD 6 none) else 0
      let pl := mv - iv
      let plp := if 0 < iv then pl / iv * 100 else 0
      if 0 < mv then
        some { manager_name := "Motilal Oswal"
               asset_type := "AIF"
               asset_name := instrument
               value_as_of_date := report_date
               current_investment_value := iv
               current_market_value := mv
               pl_amount := pl
               pl_percentage := plp }
      else none

/-! ## `KotakExtractor` (lines 1049-1389) -/

/-- `KotakExtractor._classify_kotak_asset_type` (lines 1363-1379). -/
def kotakClassifyAssetType (category instrument_name : String) : String :=
  let category_upper := pyUpper category
  let instrument_upper := pyUpper instrument_name
  if strContainsSub instrument_upper "AIF" || strContainsSub instrument_upper "CLASS A1" then "AIF"
  else if strContainsSub category_upper "MUTUAL FUNDS" || strContainsSub instrument_upper "FUND" then
    "Mutual Funds"
  else if strContainsSub category_upper "BONDS" || strContainsSub instrument_upper "NCD" ||
          strContainsSub instrument_upper "BD" then "Bonds"
  else if strContainsSub category_upper "DIRECT EQUITY" || strContainsSub instrument_upper "LTD" then
    "Direct Equity"
  else if strContainsSub category_upper "BANK" || strContainsSub category_upper "CASH" then
    "Cash/Bank"
  else "Other"

/-- Leftmost occurrence of `needle` in the list; returns the remainder
after the occurrence. -/
def findAfterSub (needle : List Char) : List Char → Option (List Char)
  | [] => if needle.isPrefixOf ([] : List Char) then some [] else none
  | c :: cs =>
    if needle.isPrefixOf (c :: cs) then some ((c :: cs).drop needle.length)
    else findAfterSub needle cs

/-- `re.search` of a pattern of literal segments joined by `.*`: the
segments occur in order (leftmost-greedy search is exact for existence). -/
def containsInOrder : List String → List Char → Bool
  | [], _ => true
  | p :: ps, cs =>
    match findAfterSub p.toList cs with
    | some rest => containsInOrder ps rest
    | none => false

/-- The static suspected-duplicate pattern table of `KotakExtractor.__init__`
(lines 1055-1062), each regex split at its `.*` gaps. -/
def kotakDuplicatePatterns : List (List String × String) :=
  [(["ALTACURA", "AI", "ABSOLUTE", "RETURN", "FUND"], "Client Associates"),
   (["ASK", "GROWTH", "INDIA", "FUND"], "Client Associates"),
   (["WHITE", "OAK", "INDIA", "EQUITY", "FUND"], "Client Associates"),
   (["ACCURACAP", "ALPHA"], "Client Associates"),
   (["WHITE", "SPACE", "ALPHA", "FUND"], "Client Associates")]

/-- `KotakExtractor._check_for_duplicates` (lines 1381-1389). -/
def kotakCheckForDuplicates (instrument_name : String) : List String :=
  (kotakDuplicatePatterns.filter
    (fun pe => containsInOrder pe.1 (pyUpper instrument_name).toList)).map (fun pe => pe.2)

/-- `re.match(r'\d{1,2}SEP\d{1,2}SEP\d{2,4}', s)` as a Boolean, for a fixed
separator character. -/
def kotakDateMatchAt (sep : Char) (cs : List Char) : Bool :=
  let r1 := cs.takeWhile pyIsDigit
  if r1.length = 0 || 2 < r1.length then false
  else
    match cs.drop r1.length with
    | c :: rest =>
      if c = sep then
        let r2 := rest.takeWhile pyIsDigit
        if r2.length = 0 || 2 < r2.length then false
        else
          match rest.drop r2.length with
          | c2 :: rest2 =>
            if c2 = sep then 2 ≤ (rest2.takeWhile pyIsDigit).length else false
          | [] => false
      else false
    | [] => false

/-- The first column scan of `KotakExtractor._extract_holding_from_row`
(lines 1282-1290): amounts above 10000, holding cost from column 2 onward,
market value from column 4 onward (an `elif`, so one cell sets at most one). -/
def kotakScan : List (Option String) → Nat → ℚ × ℚ → ℚ × ℚ
  | [], _, st => st
  | c :: t, i, (hc, mv) =>
    match c with
    | none => kotakScan t (i + 1) (hc, mv)
    | some cell =>
      if cell = "" then kotakScan t (i + 1) (hc, mv)
      else
        let v := clean_currency_value cell
        let st2 :=
          if 10000 < v then
            if 2 ≤ i ∧ hc = 0 then (v, mv)
            else if 4 ≤ i ∧ mv = 0 then (hc, v)
            else (hc, mv)
          else (hc, mv)
        kotakScan t (i + 1) st2

/-- The fallback amount collection of lines 1293-1303: all cleaned cell
values above 10000 in row order. -/
def kotakAmounts (row : List (Option String)) : List ℚ :=
  row.filterMap (fun c =>
    match c with
    | none => none
    | some cell =>
      if cell = "" then none
      else
        let v := clean_currency_value cell
        if 10000 < v then some v else none)

/-- `KotakExtractor._extract_holding_from_row` (lines 1274-1361): column
scan with fallback, the purchase-date fallback column, the fixed-value
policy for `Bonds`, and the suspected-duplicate annotation. -/
def kotakExtractHoldingFromRow (instrument_name : String) (row : List (Option String))
    (category report_date : String) (purchase_date_col : Int)
    (investment_date : String) : Option Holding :=
  let st := kotakScan row 0 (0, 0)
  let st2 :=
    if st.1 = 0 ∨ st.2 = 0 then
      let amounts := kotakAmounts row
      if 2 ≤ amounts.length then (amounts.getD 0 0, amounts.getD 1 0) else st
    else st
  let holding_cost := st2.1
  let market_value := st2.2
  if 0 < holding_cost ∧ 0 < market_value then
    let asset_type := kotakClassifyAssetType category instrument_name
    let inv_date :=
      if investment_date ≠ "" then investment_date
      else if 0 ≤ purchase_date_col ∧ purchase_date_col < (row.length : Int) then
        match row.getD purchase_date_col.toNat none with
        | none => ""
        | some cell =>
          if cell = "" then ""
          else
            let cell_str := pyStrip cell
            if kotakDateMatchAt '/' cell_str.toList then parse_date cell_str
            else if kotakDateMatchAt '-' cell_str.toList then parse_date cell_str
            else if kotakDateMatchAt '.' cell_str.toList then parse_date cell_str
            else ""
      else ""
    let mv2 := if asset_type = "Bonds" then holding_cost else market_value
    let pl : ℚ := if asset_type = "Bonds" then 0 else market_value - holding_cost
    let plp : ℚ :=
      if asset_type = "Bonds" then 0
      else if 0 < holding_cost then (market_value - holding_cost) / holding_cost * 100 else 0
    some { manager_name := "Kotak"
           asset_type := asset_type
           asset_name := pyStrip instrument_name
           value_as_of_date := report_date
           investment_date := inv_date
           current_investment_value := holding_cost
           current_market_value := mv2
           pl_amount := pl
           pl_percentage := plp
           potential_duplicate := kotakCheckForDuplicates instrument_name }
  else none

/-- The emission gate of `KotakExtractor.extract` line 1207:
`holding and holding['current_market_value'] > 1000`. -/
def kotakRowEmit (instrument_name : String) (row : List (Option String))
    (category report_date : String) (purchase_date_col : Int)
    (investment_date : String) : Option Holding :=
  match kotakExtractHoldingFromRow instrument_name row category report_date
      purchase_date_col investment_date with
  | some h => if 1000 < h.current_market_value then some h else none
  | none => none

/-! ## `create_asset_key` (lines 1648-1704)

The generic-normalization `re.sub` calls of the source are written with
doubled backslashes inside raw strings (for example `r'\\bGROWTH\\b'`), so
as regexes they demand literal backslash characters in the text; the
embedding reproduces exactly those patterns. -/

/-- The tail of the tranche-date pattern (day digits, then a `-` or `/`
separator, exactly three word characters, another separator, and two to four
digits).  Returns the matched tail. -/
def tranchDateTail (cs : List Char) : Option (List Char) :=
  match cs with
  | s1 :: w1 :: w2 :: w3 :: s2 :: rest =>
    if (s1 = '-' || s1 = '/') && pyIsWord w1 && pyIsWord w2 && pyIsWord w3 &&
       (s2 = '-' || s2 = '/') then
      let ds := (rest.takeWhile pyIsDigit).take 4
      if 2 ≤ ds.length then some (s1 :: w1 :: w2 :: w3 :: s2 :: ds) else none
    else none
  | _ => none

/-- Head match of the tranche-date pattern, with the one-or-two-digit
backtracking of the day group. -/
def tranchDateAt (cs : List Char) : Option (List Char) :=
  match cs with
  | c :: r =>
    if pyIsDigit c then
      match r with
      | c2 :: r2 =>
        if pyIsDigit c2 then
          match tranchDateTail r2 with
          | some t => some (c :: c2 :: t)
          | none => (tranchDateTail r).map (fun t => c :: t)
        else (tranchDateTail r).map (fun t => c :: t)
      | [] => none
    else none
  | [] => none

/-- The tranche-date `re.search` of line 1653 (one or two day digits, a
dash-or-slash separator, three word characters, a separator, two to four
digits). -/
def searchTranchDate (s : String) : Option String :=
  (searchScan tranchDateAt s.toList).map List.asString

/-- One alternative of `(SERIES\s*\w+|CLASS\s*\w+)` anchored at the head. -/
def seriesAltAt (lit : List Char) (cs : List Char) : Option (List Char) :=
  if lit.isPrefixOf cs then
    let rest := cs.drop lit.length
    let sp := rest.takeWhile pyIsSpace
    let wd := (rest.drop sp.length).takeWhile pyIsWord
    if wd.isEmpty then none else some (lit ++ sp ++ wd)
  else none

/-- Match of `(SERIES\s*\w+|CLASS\s*\w+)` anchored at the head, trying the
alternatives in order. -/
def seriesClassAt (cs : List Char) : Option (List Char) :=
  match seriesAltAt "SERIES".toList cs with
  | some m => some m
  | none => seriesAltAt "CLASS".toList cs

/-- `re.search(r'(SERIES\s*\w+|CLASS\s*\w+)', key)` (line 1659). -/
def searchSeriesClass (s : String) : Option String :=
  (searchScan seriesClassAt s.toList).map List.asString

/-- `re.sub` for an ordered alternation of nonempty literal patterns with
empty replacement, by a single left-to-right scan; the fuel (input length
plus one) is enough because each step consumes at least one character. -/
def subLitsAux (pats : List (List Char)) : Nat → List Char → List Char
  | 0, cs => cs
  | _ + 1, [] => []
  | n + 1, c :: cs =>
    match pats.find? (fun p => !p.isEmpty && p.isPrefixOf (c :: cs)) with
    | some p => subLitsAux pats n ((c :: cs).drop p.length)
    | none => c :: subLitsAux pats n cs

/-- `re.sub('lit1|lit2|...', '', s)` for literal alternatives. -/
def reSubLits (pats : List String) (s : String) : String :=
  (subLitsAux (pats.map String.toList) (s.length + 1) s.toList).asString

/-- `re.sub(r'\\(ERSTWHILE.*?\\)', '', s)`: as written the pattern matches a
literal backslash, `ERSTWHILE`, a lazy span, and a closing literal
backslash. -/
def eraseErstwhileAux : Nat → List Char → List Char
  | 0, cs => cs
  | _ + 1, [] => []
  | n + 1, c :: cs =>
    if ("\\ERSTWHILE".toList).isPrefixOf (c :: cs) then
      match ((c :: cs).drop 10).dropWhile (fun x => x ≠ '\\') with
      | '\\' :: after => eraseErstwhileAux n after
      | _ => c :: eraseErstwhileAux n cs
    else c :: eraseErstwhileAux n cs

/-- Driver for the `ERSTWHILE` span eraser. -/
def eraseErstwhile (s : String) : String :=
  (eraseErstwhileAux (s.length + 1) s.toList).asString

/-- The character class of `re.sub(r'[-\\s]+', ' ', s)`: hyphen, literal
backslash, and the letter `s` (not whitespace - the escaping in the source
makes `s` a literal inside the class). -/
def dashClassChars : List Char := ['-', '\\', 's']

/-- `re.sub(r'[-\\s]+', ' ', s)`: maximal runs of the class collapse to one
space. -/
def replDashClassAux (inRun : Bool) : List Char → List Char
  | [] => []
  | c :: cs =>
    if dashClassChars.contains c then
      if inRun then replDashClassAux true cs else ' ' :: replDashClassAux true cs
    else c :: replDashClassAux false cs

/-- Driver for the `[-\\s]+` collapse. -/
def replDashClass (s : String) : String :=
  (replDashClassAux false s.toList).asString

/-- Head match of `\\s*LIT1\\s*LIT2` as written (literal backslash, a run of
the letter `s`, `LIT1`, literal backslash, run of `s`, `LIT2`); returns the
remainder after the match. -/
def bsPairMatchAt (lit1 lit2 : List Char) (cs : List Char) : Option (List Char) :=
  match cs with
  | '\\' :: r1 =>
    let r2 := r1.dropWhile (fun x => x = 's')
    if lit1.isPrefixOf r2 then
      match r2.drop lit1.length with
      | '\\' :: r3 =>
        let r4 := r3.dropWhile (fun x => x = 's')
        if lit2.isPrefixOf r4 then some (r4.drop lit2.length) else none
      | _ => none
    else none
  | _ => none

/-- `re.sub` driver for the `\\s*LIT1\\s*LIT2` patterns (empty replacement). -/
def bsPairSubAux (lit1 lit2 : List Char) : Nat → List Char → List Char
  | 0, cs => cs
  | _ + 1, [] => []
  | n + 1, c :: cs =>
    match bsPairMatchAt lit1 lit2 (c :: cs) with
    | some rest => bsPairSubAux lit1 lit2 n rest
    | none => c :: bsPairSubAux lit1 lit2 n cs

/-- `re.sub(r'\\s*LIT1\\s*LIT2', '', s)` as written in the source. -/
def bsPairSub (lit1 lit2 : String) (s : String) : String :=
  (bsPairSubAux lit1.toList lit2.toList (s.length + 1) s.toList).asString

/-- `re.sub(r'\\s+', ' ', s)` as written: a literal backslash followed by a
nonempty run of the letter `s` becomes one space. -/
def bsSplusAux : Nat → List Char → List Char
  | 0, cs => cs
  | _ + 1, [] => []
  | n + 1, c :: cs =>
    if c = '\\' then
      let srun := cs.takeWhile (fun x => x = 's')
      if srun.isEmpty then c :: bsSplusAux n cs
      else ' ' :: bsSplusAux n (cs.drop srun.length)
    else c :: bsSplusAux n cs

/-- Driver for the `\\s+` substitution. -/
def bsSplus (s : String) : String :=
  (bsSplusAux (s.length + 1) s.toList).asString

/-- Python `key.replace(' ', '_')`. -/
def replaceSpaceUnderscore (s : String) : String :=
  s.map (fun c => if c = ' ' then '_' else c)

/-- The generic-normalization block of `create_asset_key` (lines 1682-1702),
substitution by substitution, with the patterns exactly as the source spells
them (each `\\b...\\b` pattern demands literal backslashes, so on
backslash-free names only the `[-\\s]+` collapse and the final strip act). -/
def genericNormalize (key : String) : String :=
  let k1 := reSubLits ["\\DEMAT\\"] key
  let k2 := eraseErstwhile k1
  let k3 := reSubLits ["\\bCLASS A1\\b", "\\bCL A1\\b", "\\bCLASS B1\\b", "\\bCL B1\\b",
    "\\bCL D4\\b"] k2
  let k4 := reSubLits ["\\bDIRECT PLAN\\b", "\\bREGULAR PLAN\\b"] k3
  let k5 := reSubLits ["\\bGROWTH\\b"] k4
  let k6 := reSubLits ["\\bLTD\\b", "\\bLIMITED\\b"] k5
  let k7 := reSubLits ["\\bLLP\\b"] k6
  let k8 := reSubLits ["\\bFUND\\b"] k7
  let k9 := reSubLits ["\\bAIF\\b"] k8
  let k10 := reSubLits ["\\bEQUITY\\b"] k9
  let k11 := reSubLits ["\\bVI\\b"] k10
  let k12 := reSubLits ["\\bTRUST\\b"] k11
  let k13 := reSubLits ["\\bINVESTMENT\\b"] k12
  let k14 := reSubLits ["\\bALTERNATIVE\\b"] k13
  let k15 := reSubLits ["\\bSERIES\\b", "\\bSR\\b"] k14
  let k16 := reSubLits ["\\bI\\b", "\\bIV\\b"] k15
  let k17 := replDashClass k16
  let k18 := bsPairSub "-" "25-" k17
  let k19 := bsPairSub "6W" "12A" k18
  let k20 := bsPairSub "OPT" "1" k19
  let k21 := bsSplus k20
  pyStrip k21

/-- `create_asset_key` (lines 1648-1704): uppercase, optional tranche-date
suffix, the fixed multi-tranche fund-family carve-outs, otherwise the
generic normalization block. -/
def create_asset_key (asset_name : String) : String :=
  let key := pyUpper asset_name
  let date_suffix :=
    match searchTranchDate key with
    | some d => "_" ++ d
    | none => ""
  if strContainsSub key "ASK" && strContainsSub key "GROWTH" && strContainsSub key "INDIA" then
    let series_suffix :=
      match searchSeriesClass key with
      | some m => "_" ++ m
      | none => ""
    "ASK GROWTH INDIA" ++ series_suffix ++ date_suffix
  else if strContainsSub key "ALTACURA" && strContainsSub key "AI" &&
          strContainsSub key "ABSOLUTE" && strContainsSub key "RETURN" then
    replaceSpaceUnderscore key
  else if strContainsSub key "WHITE" && strContainsSub key "OAK" && strContainsSub key "INDIA" &&
          (strContainsSub key "EQUITY" || strContainsSub key "VI") then
    "WHITE OAK INDIA EQUITY" ++ date_suffix
  else if strContainsSub key "ACCURACAP" &&
          (strContainsSub key "ALPHA" || strContainsSub key "PRIME") then
    "ACCURACAP ALPHA" ++ date_suffix
  else if strContainsSub key "WHITE" && strContainsSub key "SPACE" &&
          strContainsSub key "ALPHA" then
    replaceSpaceUnderscore key
  else if strContainsSub key "MOTILAL OSWAL" &&
          (strContainsSub key "ALTERNATIVE" || strContainsSub key "FOUNDERS" ||
           strContainsSub key "SELECT") then
    if strContainsSub key "SELECT" &&
       (strContainsSub key "OPP" || strContainsSub key "OPPORTUNITIES") then
      "MOTILAL OSWAL SELECT OPPORTUNITIES"
    else if strContainsSub key "FOUNDERS" ||
            (strContainsSub key "MOTILAL" && strContainsSub key "OSWL" &&
             strContainsSub key "ANCHORS") then
      "MOTILAL OSWAL FOUNDERS"
    else "MOTILAL OSWAL ALTERNATIVE"
  else genericNormalize key

/-! ## `remove_duplicates` (lines 1601-1646) and `get_original_manager` (lines 1706-1711) -/

/-- The fixed issuer priority order of line 1617. -/
def managerPriority : List String :=
  ["Client Associates", "IND Money", "Yes Bank", "Motilal Oswal", "IIFL 360 One", "Kotak"]

/-- Processing order of `remove_duplicates`: the input grouped by manager
(insertion order kept within a manager) and visited in priority order;
holdings of managers outside the priority list are never visited. -/
def groupBy (P : List String) (l : List Holding) : List Holding :=
  match P with
  | [] => []
  | m :: P2 => l.filter (fun h => h.manager_name == m) ++ groupBy P2 l

/-- The grouped traversal order of `remove_duplicates`. -/
def groupByPriority (l : List Holding) : List Holding :=
  groupBy managerPriority l

/-- `get_original_manager` (lines 1706-1711): the manager of the first clean
holding whose key matches, else `Unknown`. -/
def get_original_manager (asset_key : String) (clean_holdings : List Holding) : String :=
  match clean_holdings.find? (fun h => create_asset_key h.asset_name == asset_key) with
  | some h => h.manager_name
  | none => "Unknown"

/-- The seen-set loop of `remove_duplicates` (lines 1619-1639) with its
three pieces of state: the seen keys, the clean holdings, and the removed
log pairing each dropped duplicate with the manager that first claimed its
key. -/
def removeDuplicatesAux : List Holding → List String → List Holding →
    List (Holding × String) → List Holding × List (Holding × String)
  | [], _, clean_holdings, removed => (clean_holdings, removed)
  | h :: t, seen, clean_holdings, removed =>
    let asset_key := create_asset_key h.asset_name
    if asset_key ∈ seen then
      removeDuplicatesAux t seen clean_holdings
        (removed ++ [(h, get_original_manager asset_key clean_holdings)])
    else
      removeDuplicatesAux t (asset_key :: seen) (clean_holdings ++ [h]) removed

/-- The whole internal computation of `remove_duplicates`: the clean list
and the removed-duplicates log. -/
def removeDuplicatesFull (all_holdings : List Holding) : List Holding × List (Holding × String) :=
  removeDuplicatesAux (groupByPriority all_holdings) [] [] []

/-- `remove_duplicates` as the source returns it (line 1646): only the
clean list; the removed log is reported to the console and discarded. -/
def remove_duplicates (all_holdings : List Holding) : List Holding :=
  (removeDuplicatesFull all_holdings).1

/-- The clean component of the loop in isolation (used by the proofs). -/
def cleanPass : List Holding → List String → List Holding
  | [], _ => []
  | h :: t, seen =>
    let k := create_asset_key h.asset_name
    if k ∈ seen then cleanPass t seen
    else h :: cleanPass t (k :: seen)

/-! ## Structural lemmas about the deduplication engine -/

/-- The key of a holding, abbreviating the proofs. -/
def holdingKey (h : Holding) : String :=
  create_asset_key h.asset_name

/-- The clean component of the loop ignores the accumulators. -/
lemma removeDuplicatesAux_fst (t : List Holding) :
    ∀ (seen : List String) (c : List Holding) (r : List (Holding × String)),
    (removeDuplicatesAux t seen c r).1 = c ++ cleanPass t seen := by
  induction t with
  | nil => intro seen c r; simp [removeDuplicatesAux, cleanPass]
  | cons h t ih =>
    intro seen c r
    simp only [removeDuplicatesAux, cleanPass]
    by_cases hk : create_asset_key h.asset_name ∈ seen
    · simp [hk, ih]
    · simp [hk, ih]

/-- The clean output is a subsequence of the processed list. -/
lemma cleanPass_sublist (t : List Holding) : ∀ seen, List.Sublist (cleanPass t seen) t := by
  induction t with
  | nil => intro seen; simp [cleanPass]
  | cons h t ih =>
    intro seen
    simp only [cleanPass]
    by_cases hk : create_asset_key h.asset_name ∈ seen
    · simp only [if_pos hk]
      exact (ih seen).cons h
    · simp only [if_neg hk]
      exact (ih _).cons₂ h

/-- Keys of the clean output are distinct and avoid the seen set. -/
lemma cleanPass_keys_fresh (t : List Holding) :
    ∀ seen, ((cleanPass t seen).map holdingKey).Nodup ∧
      ∀ k ∈ (cleanPass t seen).map holdingKey, k ∉ seen := by
  induction t with
  | nil => intro seen; simp [cleanPass]
  | cons h t ih =>
    intro seen
    simp only [cleanPass]
    by_cases hk : create_asset_key h.asset_name ∈ seen
    · simpa [hk] using ih seen
    · simp only [if_neg hk, List.map_cons, List.nodup_cons, List.mem_cons]
      obtain ⟨ih1, ih2⟩ := ih (create_asset_key h.asset_name :: seen)
      refine ⟨⟨fun hmem => ?_, ih1⟩, ?_⟩
      · exact (ih2 _ hmem) (by simp [holdingKey])
      · rintro k (rfl | hmem)
        · exact hk
        · intro hks
          exact (ih2 k hmem) (List.mem_cons_of_mem _ hks)

/-- On a list whose keys are distinct and unseen, the pass keeps everything. -/
lemma cleanPass_of_nodup (t : List Holding) :
    ∀ seen, (t.map holdingKey).Nodup →
    (∀ k ∈ t.map holdingKey, k ∉ seen) →
    cleanPass t seen = t := by
  induction t with
  | nil => intro seen _ _; simp [cleanPass]
  | cons h t ih =>
    intro seen hnd hout
    simp only [List.map_cons, List.nodup_cons] at hnd
    obtain ⟨hnd1, hnd2⟩ := hnd
    have hk : create_asset_key h.asset_name ∉ seen := by
      have := hout (holdingKey h) (by simp)
      simpa [holdingKey] using this
    simp only [cleanPass, if_neg hk]
    congr 1
    apply ih
    · exact hnd2
    · intro k hkmem hkc
      rcases List.mem_cons.mp hkc with rfl | hcs
      · exact hnd1 hkmem
      · exact hout k (by simp [hkmem]) hcs

/-- A member of a grouped list has a manager in the group list. -/
lemma manager_mem_of_mem_groupBy (P : List String) (l : List Holding) (h : Holding) :
    h ∈ groupBy P l → h.manager_name ∈ P := by
  induction P with
  | nil => simp [groupBy]
  | cons m P2 ih =>
    intro hmem
    simp only [groupBy, List.mem_append] at hmem
    rcases hmem with hm | hm
    · exact List.mem_cons.mpr (Or.inl (by simpa using (List.mem_filter.mp hm).2))
    · exact List.mem_cons.mpr (Or.inr (ih hm))

/-- A member of a grouped list is a member of the original list. -/
lemma mem_of_mem_groupBy (P : List String) (l : List Holding) (h : Holding) :
    h ∈ groupBy P l → h ∈ l := by
  induction P with
  | nil => simp [groupBy]
  | cons m P2 ih =>
    intro hmem
    simp only [groupBy, List.mem_append] at hmem
    rcases hmem with hm | hm
    · exact (List.mem_filter.mp hm).1
    · exact ih hm

/-- Grouping ignores prefixed holdings whose managers lie outside the group
list. -/
lemma groupBy_drop_left (P : List String) (y1 y2 : List Holding)
    (hout : ∀ h ∈ y1, h.manager_name ∉ P) :
    groupBy P (y1 ++ y2) = groupBy P y2 := by
  induction P with
  | nil => rfl
  | cons m P2 ih =>
    simp only [groupBy, List.filter_append]
    have h1 : y1.filter (fun h => h.manager_name == m) = [] := by
      rw [List.filter_eq_nil_iff]
      intro a ha hba
      exact hout a ha (by simp_all)
    rw [h1, List.nil_append]
    rw [ih (fun h hh hmem => hout h hh (List.mem_cons_of_mem _ hmem))]

/-- A subsequence of a grouped list re-groups to itself. -/
lemma groupBy_sublist_fix (P : List String) :
    ∀ (l y : List Holding), P.Nodup → List.Sublist y (groupBy P l) → groupBy P y = y := by
  induction P with
  | nil =>
    intro l y _ hy
    simp only [groupBy] at hy
    simp [groupBy, List.sublist_nil.mp hy]
  | cons m P2 ih =>
    intro l y hnd hy
    simp only [groupBy] at hy
    obtain ⟨y1, y2, rfl, hy1, hy2⟩ := List.sublist_append_iff.mp hy
    have hmP2 : m ∉ P2 := (List.nodup_cons.mp hnd).1
    have hy1m : ∀ h ∈ y1, h.manager_name = m := by
      intro h hh
      have := hy1.subset hh
      simpa using (List.mem_filter.mp this).2
    have hy2m : ∀ h ∈ y2, h.manager_name ∈ P2 := by
      intro h hh
      exact manager_mem_of_mem_groupBy P2 l h (hy2.subset hh)
    simp only [groupBy, List.filter_append]
    have hf1 : y1.filter (fun h => h.manager_name == m) = y1 :=
      List.filter_eq_self.mpr (fun a ha => by simp [hy1m a ha])
    have hf2 : y2.filter (fun h => h.manager_name == m) = [] := by
      rw [List.filter_eq_nil_iff]
      intro a ha hba
      have hEq : a.manager_name = m := by simpa using hba
      exact hmP2 (hEq ▸ hy2m a ha)
    have hrest : groupBy P2 (y1 ++ y2) = groupBy P2 y2 :=
      groupBy_drop_left P2 y1 y2 (fun h hh hmem => hmP2 ((hy1m h hh) ▸ hmem))
    rw [hf1, hf2, List.append_nil, hrest, ih l y2 (List.nodup_cons.mp hnd).2 hy2]

/-- `remove_duplicates` expressed through the clean pass. -/
lemma remove_duplicates_eq_cleanPass (l : List Holding) :
    remove_duplicates l = cleanPass (groupByPriority l) [] := by
  simp [remove_duplicates, removeDuplicatesFull, removeDuplicatesAux_fst]

/-- The priority list has no repeated manager names. -/
lemma managerPriority_nodup : managerPriority.Nodup := by decide

/-- C5.  Idempotence of the deduplication engine: re-running
`remove_duplicates` on its own clean output returns that output unchanged
(same records, same order). -/
theorem remove_duplicates_idempotent (x : List Holding) :
    remove_duplicates (remove_duplicates x) = remove_duplicates x := by
  have hx : remove_duplicates x = cleanPass (groupByPriority x) [] :=
    remove_duplicates_eq_cleanPass x
  have hsub : List.Sublist (remove_duplicates x) (groupByPriority x) := by
    rw [hx]; exact cleanPass_sublist _ []
  have hgroup : groupByPriority (remove_duplicates x) = remove_duplicates x :=
    groupBy_sublist_fix managerPriority x (remove_duplicates x) managerPriority_nodup hsub
  have hkeys := cleanPass_keys_fresh (groupByPriority x) []
  rw [remove_duplicates_eq_cleanPass (remove_duplicates x), hgroup]
  rw [hx]
  exact cleanPass_of_nodup _ [] (hx ▸ hkeys.1) (by simp)

/-- A member of the clean result was in the processed list or the clean
accumulator. -/
lemma removeDuplicatesAux_fst_mem (t : List Holding) :
    ∀ seen c r h, h ∈ (removeDuplicatesAux t seen c r).1 → h ∈ c ∨ h ∈ t := by
  induction t with
  | nil => intro seen c r h hm; simp only [removeDuplicatesAux] at hm; exact Or.inl hm
  | cons x t ih =>
    intro seen c r h hm
    simp only [removeDuplicatesAux] at hm
    by_cases hk : create_asset_key x.asset_name ∈ seen
    · rw [if_pos hk] at hm
      rcases ih _ _ _ _ hm with hc | ht
      · exact Or.inl hc
      · exact Or.inr (List.mem_cons_of_mem _ ht)
    · rw [if_neg hk] at hm
      rcases ih _ _ _ _ hm with hc | ht
      · rcases List.mem_append.mp hc with hc2 | hx
        · exact Or.inl hc2
        · exact Or.inr (List.mem_cons.mpr (Or.inl (List.mem_singleton.mp hx)))
      · exact Or.inr (List.mem_cons_of_mem _ ht)

/-- A dropped record in the removed log was in the processed list or the
removed accumulator. -/
lemma removeDuplicatesAux_snd_mem (t : List Holding) :
    ∀ seen c r h, h ∈ ((removeDuplicatesAux t seen c r).2.map Prod.fst) →
      h ∈ r.map Prod.fst ∨ h ∈ t := by
  induction t with
  | nil => intro seen c r h hm; simp only [removeDuplicatesAux] at hm; exact Or.inl hm
  | cons x t ih =>
    intro seen c r h hm
    simp only [removeDuplicatesAux] at hm
    by_cases hk : create_asset_key x.asset_name ∈ seen
    · rw [if_pos hk] at hm
      rcases ih _ _ _ _ hm with hr | ht
      · rw [List.map_append] at hr
        rcases List.mem_append.mp hr with hr2 | hx
        · exact Or.inl hr2
        · exact Or.inr (List.mem_cons.mpr (Or.inl (by simpa using hx)))
      · exact Or.inr (List.mem_cons_of_mem _ ht)
    · rw [if_neg hk] at hm
      rcases ih _ _ _ _ hm with hr | ht
      · exact Or.inl hr
      · exact Or.inr (List.mem_cons_of_mem _ ht)

/-- The clean accumulator survives into the clean result. -/
lemma removeDuplicatesAux_fst_acc (t : List Holding) :
    ∀ seen c r, ∀ h ∈ c, h ∈ (removeDuplicatesAux t seen c r).1 := by
  intro seen c r h hc
  rw [removeDuplicatesAux_fst]
  exact List.mem_append.mpr (Or.inl hc)

/-- The removed accumulator survives into the removed log. -/
lemma removeDuplicatesAux_snd_acc (t : List Holding) :
    ∀ seen c r, ∀ h ∈ r.map Prod.fst, h ∈ ((removeDuplicatesAux t seen c r).2.map Prod.fst) := by
  induction t with
  | nil => intro seen c r h hr; simpa [removeDuplicatesAux] using hr
  | cons x t ih =>
    intro seen c r h hr
    simp only [removeDuplicatesAux]
    by_cases hk : create_asset_key x.asset_name ∈ seen
    · rw [if_pos hk]
      exact ih _ _ _ h (by simp only [List.map_append, List.mem_append]; exact Or.inl hr)
    · rw [if_neg hk]
      exact ih _ _ _ h hr

/-- Every processed holding lands in the clean result or the removed log. -/
lemma removeDuplicatesAux_cover (t : List Holding) :
    ∀ seen c r h, h ∈ t →
      h ∈ (removeDuplicatesAux t seen c r).1 ∨
      h ∈ ((removeDuplicatesAux t seen c r).2.map Prod.fst) := by
  induction t with
  | nil => intro seen c r h hm; simp at hm
  | cons x t ih =>
    intro seen c r h hm
    rcases List.mem_cons.mp hm with rfl | ht
    · simp only [removeDuplicatesAux]
      by_cases hk : create_asset_key h.asset_name ∈ seen
      · rw [if_pos hk]
        refine Or.inr (removeDuplicatesAux_snd_acc t _ _ _ h ?_)
        simp
      · rw [if_neg hk]
        refine Or.inl (removeDuplicatesAux_fst_acc t _ _ _ h ?_)
        simp
    · simp only [removeDuplicatesAux]
      by_cases hk : create_asset_key x.asset_name ∈ seen
      · rw [if_pos hk]; exact ih _ _ _ h ht
      · rw [if_neg hk]; exact ih _ _ _ h ht

/-- Grouping the empty list gives the empty list. -/
lemma groupBy_nil (P : List String) : groupBy P [] = [] := by
  induction P with
  | nil => rfl
  | cons m P2 ih => simp [groupBy, ih]

/-- Grouping a single holding whose manager is in the list keeps it. -/
lemma groupBy_single (P : List String) :
    ∀ (b : Holding), P.Nodup → b.manager_name ∈ P → groupBy P [b] = [b] := by
  induction P with
  | nil => intro b _ hb; simp at hb
  | cons m P2 ih =>
    intro b hnd hb
    have hmP2 : m ∉ P2 := (List.nodup_cons.mp hnd).1
    by_cases hbm : b.manager_name = m
    · simp only [groupBy]
      have hfil : [b].filter (fun h => h.manager_name == m) = [b] := by simp [hbm]
      have hrest : groupBy P2 [b] = [] := by
        have hdrop := groupBy_drop_left P2 [b] []
          (by intro h hh; simp at hh; subst hh; rw [hbm]; exact hmP2)
        simpa [groupBy_nil] using hdrop
      rw [hfil, hrest, List.append_nil]
    · have hbP2 : b.manager_name ∈ P2 := by
        rcases List.mem_cons.mp hb with h | h
        · exact absurd h hbm
        · exact h
      simp only [groupBy]
      have hfil : [b].filter (fun h => h.manager_name == m) = [] := by simp [hbm]
      rw [hfil, List.nil_append, ih b (List.nodup_cons.mp hnd).2 hbP2]

/-- Grouping a two-element list whose first manager has strictly higher
priority keeps the list as is. -/
lemma groupBy_pair_lt (P : List String) :
    ∀ (a b : Holding), P.Nodup → a.manager_name ∈ P → b.manager_name ∈ P →
      P.indexOf a.manager_name < P.indexOf b.manager_name →
      groupBy P [a, b] = [a, b] := by
  induction P with
  | nil => intro a b _ ha _ _; simp at ha
  | cons m P2 ih =>
    intro a b hnd ha hb hlt
    have hmP2 : m ∉ P2 := (List.nodup_cons.mp hnd).1
    by_cases ham : a.manager_name = m
    · have hbm : b.manager_name ≠ m := by
        intro hEq
        rw [List.indexOf_cons_eq _ ham.symm, List.indexOf_cons_eq _ hEq.symm] at hlt
        omega
      have hbP2 : b.manager_name ∈ P2 := by
        rcases List.mem_cons.mp hb with h | h
        · exact absurd h hbm
        · exact h
      simp only [groupBy]
      have hbq : (b.manager_name == m) = false := by simp [hbm]
      have hfil : [a, b].filter (fun h => h.manager_name == m) = [a] := by
        simp [List.filter, ham, hbq]
      have hdrop : groupBy P2 [a, b] = groupBy P2 [b] := by
        have := groupBy_drop_left P2 [a] [b]
          (by intro h hh; simp at hh; subst hh; rw [ham]; exact hmP2)
        simpa using this
      rw [hfil, hdrop, groupBy_single P2 b (List.nodup_cons.mp hnd).2 hbP2]
      rfl
    · have hbm : b.manager_name ≠ m := by
        intro hEq
        rw [List.indexOf_cons_eq _ hEq.symm] at hlt
        omega
      have haP2 : a.manager_name ∈ P2 := by
        rcases List.mem_cons.mp ha with h | h
        · exact absurd h ham
        · exact h
      have hbP2 : b.manager_name ∈ P2 := by
        rcases List.mem_cons.mp hb with h | h
        · exact absurd h hbm
        · exact h
      have hlt2 : P2.indexOf a.manager_name < P2.indexOf b.manager_name := by
        rw [List.indexOf_cons_ne _ (fun hEq => ham hEq.symm),
            List.indexOf_cons_ne _ (fun hEq => hbm hEq.symm)] at hlt
        omega
      simp only [groupBy]
      have haq : (a.manager_name == m) = false := by simp [ham]
      have hbq : (b.manager_name == m) = false := by simp [hbm]
      have hfil : [a, b].filter (fun h => h.manager_name == m) = [] := by
        simp [List.filter, haq, hbq]
      rw [hfil, List.nil_append, ih a b (List.nodup_cons.mp hnd).2 haP2 hbP2 hlt2]

/-- On a priority-ordered pair with equal keys, the loop keeps the first
record and logs the second against the first record's manager. -/
lemma removeDuplicatesFull_pair (a b : Holding)
    (hk : create_asset_key a.asset_name = create_asset_key b.asset_name)
    (hg : groupByPriority [a, b] = [a, b]) :
    removeDuplicatesFull [a, b] = ([a], [(b, a.manager_name)]) := by
  unfold removeDuplicatesFull
  rw [hg]
  have hmem : create_asset_key b.asset_name ∈ [create_asset_key a.asset_name] := by
    rw [hk]; exact List.mem_cons_self _ _
  simp [removeDuplicatesAux, hmem, get_original_manager, hk]

/-! ## Claim theorems -/

/-- C1.  For the IND Money extractor, a first page stating the monthly
statement period `AUGUST - 2025` parses to the report date `2025-08-31`,
and a well-formed holdings row reporting a market value of 1,000 in USD at
exchange rate 83.0 yields a holding whose `current_market_value` is 83,000
INR.  (This is the arithmetic of the row-conversion code at lines 240-298;
the surrounding `extract` can never reach it, because line 192 calls the
nonexistent `CurrencyConverter.get_usd_to_inr_rate` and the resulting
`AttributeError` makes `extract` return `[]`.) -/
theorem indmoney_row_converts_aug2025 :
    parse_date_from_period "AUGUST - 2025" = "2025-08-31" ∧
    (indmoneyProcessRow
      [some "AAPL", some "Apple Inc", some "10", none, some "1,000", none, none, some "900"]
      83 "2025-08-31" []).map Holding.current_market_value = some 83000 := by
  constructor
  · with_unfolding_all rfl
  · with_unfolding_all rfl

/-- A Client Associates holding named `ABC Growth Fund - Series I`. -/
def caHoldingC2 : Holding :=
  { manager_name := "Client Associates", asset_type := "AIF",
    asset_name := "ABC Growth Fund - Series I", current_investment_value := 100000,
    current_market_value := 150000, pl_amount := 50000, pl_percentage := 50 }

/-- A Kotak holding named `ABC GROWTH FUND SR I`. -/
def kotakHoldingC2 : Holding :=
  { manager_name := "Kotak", asset_type := "AIF", asset_name := "ABC GROWTH FUND SR I",
    current_investment_value := 101000, current_market_value := 149000,
    pl_amount := 48000, pl_percentage := 47 }

/-- C2.  The generic normalization of `create_asset_key` is inert on these
names: the `re.sub` patterns of lines 1682-1702 are spelled with doubled
backslashes inside raw strings, so they demand literal backslash characters
and strip nothing; the two spellings of the same tranche get different keys
and deduplication keeps both holdings. -/
theorem asset_key_generic_normalization_inert :
    create_asset_key "ABC Growth Fund - Series I" = "ABC GROWTH FUND   SERIES I" ∧
    create_asset_key "ABC GROWTH FUND SR I" = "ABC GROWTH FUND SR I" ∧
    create_asset_key "ABC Growth Fund - Series I" ≠ create_asset_key "ABC GROWTH FUND SR I" ∧
    remove_duplicates [caHoldingC2, kotakHoldingC2] = [caHoldingC2, kotakHoldingC2] := by
  have h1 : create_asset_key "ABC Growth Fund - Series I" = "ABC GROWTH FUND   SERIES I" := by
    with_unfolding_all rfl
  have h2 : create_asset_key "ABC GROWTH FUND SR I" = "ABC GROWTH FUND SR I" := by
    with_unfolding_all rfl
  refine ⟨h1, h2, ?_, ?_⟩
  · rw [h1, h2]; decide
  · with_unfolding_all rfl

/-- C7.  `clean_currency_value` is total (it is a Lean function), returns
`0.0` on empty and placeholder input and on every string whose stripped
form fails to parse as a float, and parses `₹1,234.50` to `1234.50`. -/
theorem clean_currency_value_spec :
    clean_currency_value "" = 0 ∧
    clean_currency_value "-" = 0 ∧
    clean_currency_value "₹1,234.50" = 1234.50 ∧
    ∀ s, pyFloatParse (stripCurrencyChars s) = none → clean_currency_value s = 0 := by
  refine ⟨by with_unfolding_all rfl, by with_unfolding_all rfl, by with_unfolding_all rfl, ?_⟩
  intro s hp
  unfold clean_currency_value
  split_ifs with h0
  · rfl
  · rw [hp]; rfl

/-- Witness for C7 at the unparseable input `12abc`. -/
theorem clean_currency_value_spec_witness : clean_currency_value "12abc" = 0 :=
  clean_currency_value_spec.2.2.2 "12abc" (by with_unfolding_all rfl)

/-- C8.  Every holding produced by `KotakExtractor._extract_holding_from_row`
whose classified asset type is `Bonds` has market value forced equal to
investment value and both P&L fields forced to zero. -/
theorem kotak_bonds_fixed_value (instrument_name : String) (row : List (Option String))
    (category report_date : String) (pcol : Int) (inv_date : String) (h : Holding)
    (hsome : kotakExtractHoldingFromRow instrument_name row category report_date pcol inv_date
      = some h)
    (hbond : h.asset_type = "Bonds") :
    h.current_market_value = h.current_investment_value ∧
    h.pl_amount = 0 ∧ h.pl_percentage = 0 := by
  simp only [kotakExtractHoldingFromRow] at hsome
  split at hsome
  · split at hsome <;>
      · obtain ⟨hgate, hrec⟩ := Option.ite_none_right_eq_some.mp hsome
        obtain rfl := Option.some.inj hrec
        have hb : kotakClassifyAssetType category instrument_name = "Bonds" := hbond
        simp [hb]
  · obtain ⟨hgate, hrec⟩ := Option.ite_none_right_eq_some.mp hsome
    obtain rfl := Option.some.inj hrec
    have hb : kotakClassifyAssetType category instrument_name = "Bonds" := hbond
    simp [hb]

/-- The Kotak bond row used by the C8 witness. -/
def exKotakBondRow : List (Option String) :=
  [some "100", some "5", some "50,000", some "5", some "60,000"]

/-- The holding the Kotak extractor produces on `exKotakBondRow`. -/
def exKotakBondHolding : Holding :=
  { manager_name := "Kotak", asset_type := "Bonds",
    asset_name := "SOMECORP NCD 2027 TRANCHE A", value_as_of_date := "2025-08-31",
    investment_date := "", current_investment_value := 50000,
    current_market_value := 50000, pl_amount := 0, pl_percentage := 0,
    irr_percentage := 0, potential_duplicate := [] }

/-- Witness for C8 at a concrete bond row. -/
theorem kotak_bonds_fixed_value_witness :
    exKotakBondHolding.current_market_value = exKotakBondHolding.current_investment_value ∧
    exKotakBondHolding.pl_amount = 0 ∧ exKotakBondHolding.pl_percentage = 0 :=
  kotak_bonds_fixed_value "SOMECORP NCD 2027 TRANCHE A" exKotakBondRow "Bonds" "2025-08-31"
    (-1) "" exKotakBondHolding (by with_unfolding_all rfl) (by with_unfolding_all rfl)

/-- C10.  A holding whose manager is not one of the six priority names is
silently dropped by `remove_duplicates`: it reaches neither the clean list
nor the removed-duplicates log. -/
theorem dedup_drops_unknown_manager (l : List Holding) (h : Holding)
    (_hmem : h ∈ l) (hm : h.manager_name ∉ managerPriority) :
    h ∉ (removeDuplicatesFull l).1 ∧ h ∉ ((removeDuplicatesFull l).2.map Prod.fst) := by
  have hgrp : h ∉ groupByPriority l := fun hc =>
    hm (manager_mem_of_mem_groupBy managerPriority l h hc)
  unfold removeDuplicatesFull
  constructor
  · intro hc
    rcases removeDuplicatesAux_fst_mem (groupByPriority l) [] [] [] h hc with h0 | h0
    · simp at h0
    · exact hgrp h0
  · intro hc
    rcases removeDuplicatesAux_snd_mem (groupByPriority l) [] [] [] h hc with h0 | h0
    · simp at h0
    · exact hgrp h0

/-- A holding from a manager outside the priority list. -/
def exUnknownHolding : Holding :=
  { manager_name := "HDFC Bank", asset_type := "Mutual Funds", asset_name := "SOME HDFC PLAN",
    current_investment_value := 5000, current_market_value := 6000,
    pl_amount := 1000, pl_percentage := 20 }

/-- Witness for C10 at a concrete unknown-manager holding. -/
theorem dedup_drops_unknown_manager_witness :
    exUnknownHolding ∉ (removeDuplicatesFull [exUnknownHolding]).1 ∧
    exUnknownHolding ∉ ((removeDuplicatesFull [exUnknownHolding]).2.map Prod.fst) :=
  dedup_drops_unknown_manager [exUnknownHolding] exUnknownHolding
    (List.mem_singleton.mpr rfl) (by decide)

/-- C4.  First-claim-wins: for two holdings with the same canonical key
whose managers are both in the priority list, the higher-priority record is
kept unchanged and the lower-priority record is logged as a duplicate
paired with the keeper's manager name. -/
theorem dedup_first_claim_wins (a b : Holding)
    (ha : a.manager_name ∈ managerPriority) (hb : b.manager_name ∈ managerPriority)
    (hpr : managerPriority.indexOf a.manager_name < managerPriority.indexOf b.manager_name)
    (hk : create_asset_key a.asset_name = create_asset_key b.asset_name) :
    removeDuplicatesFull [a, b] = ([a], [(b, a.manager_name)]) := by
  refine removeDuplicatesFull_pair a b hk ?_
  show groupBy managerPriority [a, b] = [a, b]
  exact groupBy_pair_lt managerPriority a b managerPriority_nodup ha hb hpr

/-- A Client Associates holding for the C4 witness. -/
def exPriorityA : Holding :=
  { manager_name := "Client Associates", asset_type := "AIF",
    asset_name := "ZED ALPHA HOLDINGS", current_investment_value := 100000,
    current_market_value := 150000, pl_amount := 50000, pl_percentage := 50 }

/-- A Kotak holding with the same canonical key for the C4 witness. -/
def exPriorityB : Holding :=
  { manager_name := "Kotak", asset_type := "AIF",
    asset_name := "ZED ALPHA HOLDINGS", current_investment_value := 101000,
    current_market_value := 149000, pl_amount := 48000, pl_percentage := 47 }

/-- Witness for C4 at a concrete Client Associates/Kotak pair. -/
theorem dedup_first_claim_wins_witness :
    removeDuplicatesFull [exPriorityA, exPriorityB]
      = ([exPriorityA], [(exPriorityB, exPriorityA.manager_name)]) :=
  dedup_first_claim_wins exPriorityA exPriorityB (by decide) (by decide) (by decide) rfl

/-- A Client Associates holding duplicated by a Kotak holding (C6). -/
def exDupA : Holding :=
  { manager_name := "Client Associates", asset_type := "AIF",
    asset_name := "QERTY HOLDINGS PRIVATE", current_investment_value := 200000,
    current_market_value := 260000, pl_amount := 60000, pl_percentage := 30 }

/-- The Kotak duplicate of `exDupA` (C6). -/
def exDupB : Holding :=
  { manager_name := "Kotak", asset_type := "AIF",
    asset_name := "QERTY HOLDINGS PRIVATE", current_investment_value := 201000,
    current_market_value := 259000, pl_amount := 58000, pl_percentage := 28 }

/-- C6 counterexample: on an input with one dropped duplicate, the value
`remove_duplicates` returns is only the clean list - the dropped record
appears nowhere in it, while the internally computed removed log (which the
source builds and prints but does not return) does pair the dropped record
with the original manager. -/
theorem remove_duplicates_no_pair_counterexample :
    remove_duplicates [exDupA, exDupB] = [exDupA] ∧
    (removeDuplicatesFull [exDupA, exDupB]).2 = [(exDupB, "Client Associates")] := by
  constructor
  · with_unfolding_all rfl
  · with_unfolding_all rfl

/-- C6 amended.  `remove_duplicates` returns exactly the clean component of
the internal computation (not a pair), and every holding it visits lands in
the clean list or in the internal removed log. -/
theorem remove_duplicates_returns_clean_only (l : List Holding) :
    remove_duplicates l = (removeDuplicatesFull l).1 ∧
    ∀ h ∈ groupByPriority l,
      h ∈ (removeDuplicatesFull l).1 ∨ h ∈ ((removeDuplicatesFull l).2.map Prod.fst) := by
  refine ⟨rfl, ?_⟩
  intro h hmem
  unfold removeDuplicatesFull
  exact removeDuplicatesAux_cover (groupByPriority l) [] [] [] h hmem

/-- Witness for C6 (amended) at the concrete duplicate pair. -/
theorem remove_duplicates_returns_clean_only_witness :
    exDupB ∈ (removeDuplicatesFull [exDupA, exDupB]).1 ∨
    exDupB ∈ ((removeDuplicatesFull [exDupA, exDupB]).2.map Prod.fst) :=
  (remove_duplicates_returns_clean_only [exDupA, exDupB]).2 exDupB
    (by
      have hg : groupByPriority [exDupA, exDupB] = [exDupA, exDupB] := by
        with_unfolding_all rfl
      rw [hg]
      exact List.mem_cons_of_mem _ (List.mem_singleton.mpr rfl))

/-- The Client Associates table row whose P&L column disagrees with the
difference of its value columns (C3). -/
def exCaTableRowC3 : List (Option String) :=
  [some "Alpha Growth Fund", some "01/02/2021", none, none, none, none, some "2,000", none,
   some "5,000", none, some "999", some "12.5"]

/-- C3 counterexample: the Client Associates table path emits a holding
whose `pl_amount` is the source column value 999 although market minus
investment is 3000 - `pl_amount` is taken verbatim, not recomputed. -/
theorem ca_table_pl_verbatim_counterexample :
    (caTableRow "2025-08-31" [] exCaTableRowC3).map Holding.pl_amount = some 999 ∧
    (caTableRow "2025-08-31" [] exCaTableRowC3).map
      (fun h => h.current_market_value - h.current_investment_value) = some 3000 ∧
    (999 : ℚ) ≠ 3000 := by
  refine ⟨?_, ?_, by norm_num⟩ <;> with_unfolding_all rfl

/-- C3 amended.  Every other emission site recomputes
`pl_amount = current_market_value - current_investment_value`: the IND Money
row conversion, the Client Associates text path, the two Yes Bank paths,
IIFL, Kotak (where the bond policy forces both sides to zero), and the two
Motilal Oswal paths.  Only the Client Associates table-backup path copies
the source P&L column. -/
theorem pl_amount_recomputed_outside_ca_table :
    (∀ row rate rdate dates h, indmoneyProcessRow row rate rdate dates = some h →
      h.pl_amount = h.current_market_value - h.current_investment_value) ∧
    (∀ fn rd idt dpos vals h, caTextHolding fn rd idt dpos vals = some h →
      h.pl_amount = h.current_market_value - h.current_investment_value) ∧
    (∀ cat fn rd inv cur h, ybIndividualHolding cat fn rd inv cur = some h →
      h.pl_amount = h.current_market_value - h.current_investment_value) ∧
    (∀ cat fn rd s1 s2 h, ybSimpleHolding cat fn rd s1 s2 = some h →
      h.pl_amount = h.current_market_value - h.current_investment_value) ∧
    (∀ nm cat rd vals h, iiflHolding nm cat rd vals = some h →
      h.pl_amount = h.current_market_value - h.current_investment_value) ∧
    (∀ nm row cat rd pcol idt h, kotakExtractHoldingFromRow nm row cat rd pcol idt = some h →
      h.pl_amount = h.current_market_value - h.current_investment_value) ∧
    (∀ rd row h, motilalEquityRow rd row = some h →
      h.pl_amount = h.current_market_value - h.current_investment_value) ∧
    (∀ rd row h, motilalAifRow rd row = some h →
      h.pl_amount = h.current_market_value - h.current_investment_value) := by
  refine ⟨?_, ?_, ?_, ?_, ?_, ?_, ?_, ?_⟩
  · intro row rate rdate dates h hsome
    simp only [indmoneyProcessRow] at hsome
    split at hsome
    · simp at hsome
    · split at hsome
      · simp at hsome
      · obtain ⟨hgate, hrec⟩ := Option.ite_none_right_eq_some.mp hsome
        obtain rfl := Option.some.inj hrec
        rfl
  · intro fn rd idt dpos vals h hsome
    simp only [caTextHolding] at hsome
    obtain ⟨hgate, hrec⟩ := Option.ite_none_right_eq_some.mp hsome
    obtain rfl := Option.some.inj hrec
    by_cases hA : dpos = true ∧ 5 ≤ vals.length
    · simp [hA]
    · simp [hA]
  · intro cat fn rd inv cur h hsome
    simp only [ybIndividualHolding] at hsome
    obtain ⟨hgate, hrec⟩ := Option.ite_none_right_eq_some.mp hsome
    obtain rfl := Option.some.inj hrec
    rfl
  · intro cat fn rd s1 s2 h hsome
    simp only [ybSimpleHolding] at hsome
    obtain ⟨hgate, hrec⟩ := Option.ite_none_right_eq_some.mp hsome
    obtain rfl := Option.some.inj hrec
    rfl
  · intro nm cat rd vals h hsome
    simp only [iiflHolding] at hsome
    split at hsome
    · obtain ⟨hgate, hrec⟩ := Option.ite_none_right_eq_some.mp hsome
      obtain rfl := Option.some.inj hrec
      rfl
    · simp at hsome
  · intro nm row cat rd pcol idt h hsome
    simp only [kotakExtractHoldingFromRow] at hsome
    split at hsome
    · split at hsome <;>
        · obtain ⟨hgate, hrec⟩ := Option.ite_none_right_eq_some.mp hsome
          obtain rfl := Option.some.inj hrec
          by_cases hB : kotakClassifyAssetType cat nm = "Bonds" <;> simp [hB]
    · obtain ⟨hgate, hrec⟩ := Option.ite_none_right_eq_some.mp hsome
      obtain rfl := Option.some.inj hrec
      by_cases hB : kotakClassifyAssetType cat nm = "Bonds" <;> simp [hB]
  · intro rd row h hsome
    simp only [motilalEquityRow] at hsome
    split at hsome
    · simp at hsome
    · split at hsome
      · simp at hsome
      · obtain ⟨hgate, hrec⟩ := Option.ite_none_right_eq_some.mp hsome
        obtain rfl := Option.some.inj hrec
        rfl
  · intro rd row h hsome
    simp only [motilalAifRow] at hsome
    split at hsome
    · simp at hsome
    · split at hsome
      · simp at hsome
      · obtain ⟨hgate, hrec⟩ := Option.ite_none_right_eq_some.mp hsome
        obtain rfl := Option.some.inj hrec
        rfl

/-- The Motilal Oswal equity row used by the C3 witness. -/
def exMotilalRow : List (Option String) :=
  [some "IT", some "Infosys", some "INE009A01021", none, none, none, none, none, none, none,
   none, some "2,000", none, some "5,000"]

/-- The holding the Motilal Oswal equity path produces on `exMotilalRow`. -/
def exMotilalHolding : Holding :=
  { manager_name := "Motilal Oswal", asset_type := "Direct Equity", asset_name := "Infosys",
    value_as_of_date := "2025-09-26", current_investment_value := 2000,
    current_market_value := 5000, pl_amount := 3000, pl_percentage := 150 }

/-- Witness for C3 (amended) at a concrete Motilal Oswal equity row. -/
theorem pl_amount_recomputed_outside_ca_table_witness :
    exMotilalHolding.pl_amount
      = exMotilalHolding.current_market_value - exMotilalHolding.current_investment_value :=
  pl_amount_recomputed_outside_ca_table.2.2.2.2.2.2.1 "2025-09-26" exMotilalRow
    exMotilalHolding (by with_unfolding_all rfl)

/-- Invariant of the IND Money column scan: each accumulated USD value is
zero or above 100 (only values above 100 are ever assigned). -/
lemma indScan_inv (t : List (Option String)) :
    ∀ (i : Nat) (mv cb : ℚ), (mv = 0 ∨ 100 < mv) → (cb = 0 ∨ 100 < cb) →
      ((indScan t i (mv, cb)).1 = 0 ∨ 100 < (indScan t i (mv, cb)).1) ∧
      ((indScan t i (mv, cb)).2 = 0 ∨ 100 < (indScan t i (mv, cb)).2) := by
  induction t with
  | nil => intro i mv cb h1 h2; exact ⟨h1, h2⟩
  | cons c t ih =>
    intro i mv cb h1 h2
    cases c with
    | none => simpa [indScan] using ih (i + 1) mv cb h1 h2
    | some cell =>
      by_cases hc : cell = ""
      · simpa [indScan, hc] using ih (i + 1) mv cb h1 h2
      · have harg1 : (if 100 < clean_currency_value cell ∧ 3 ≤ i ∧ (mv = 0 ∨ i = 4)
            then clean_currency_value cell else mv) = 0 ∨
            100 < (if 100 < clean_currency_value cell ∧ 3 ≤ i ∧ (mv = 0 ∨ i = 4)
            then clean_currency_value cell else mv) := by
          split_ifs with hm
          · exact Or.inr hm.1
          · exact h1
        have harg2 : (if 100 < clean_currency_value cell ∧ 6 ≤ i ∧ (cb = 0 ∨ i = 7)
            then clean_currency_value cell else cb) = 0 ∨
            100 < (if 100 < clean_currency_value cell ∧ 6 ≤ i ∧ (cb = 0 ∨ i = 7)
            then clean_currency_value cell else cb) := by
          split_ifs with hm
          · exact Or.inr hm.1
          · exact h2
        simpa [indScan, hc] using ih (i + 1) _ _ harg1 harg2

/-- The Motilal Oswal equity row with an absent cost cell (C9). -/
def exMotilalZeroIvRow : List (Option String) :=
  [some "IT", some "TCS", some "INE467B01029", none, none, none, none, none, none, none,
   none, some "-", none, some "5,000"]

/-- C9 counterexample: the Motilal Oswal equity path emits a holding whose
`current_investment_value` is 0, so the emitted candidate does not have both
values above any positive materiality threshold. -/
theorem motilal_emits_zero_investment_counterexample :
    (motilalEquityRow "2025-09-26" exMotilalZeroIvRow).map
      (fun h => (h.current_investment_value, h.current_market_value)) = some (0, 5000) := by
  with_unfolding_all rfl

/-- C9 amended.  Per-extractor market-value materiality gates: Client
Associates (both paths), Yes Bank (both paths) and IIFL emit only with both
values above 1,000; Kotak emits only with market value above 1,000; IND
Money emits only when the USD market value exceeds 100 (given a positive
exchange rate, the INR market value exceeds 100 times the rate); Motilal
Oswal emits only with positive market value.  IND Money and Motilal Oswal
place no positive lower bound on the investment value. -/
theorem materiality_market_value_thresholds :
    (∀ row rate rdate dates h, 0 < rate → indmoneyProcessRow row rate rdate dates = some h →
      100 * rate < h.current_market_value) ∧
    (∀ fn rd idt dpos vals h, caTextHolding fn rd idt dpos vals = some h →
      1000 < h.current_investment_value ∧ 1000 < h.current_market_value) ∧
    (∀ rd ex row h, caTableRow rd ex row = some h →
      1000 < h.current_investment_value ∧ 1000 < h.current_market_value) ∧
    (∀ cat fn rd inv cur h, ybIndividualHolding cat fn rd inv cur = some h →
      1000 < h.current_investment_value ∧ 1000 < h.current_market_value) ∧
    (∀ cat fn rd s1 s2 h, ybSimpleHolding cat fn rd s1 s2 = some h →
      1000 < h.current_investment_value ∧ 1000 < h.current_market_value) ∧
    (∀ nm cat rd vals h, iiflHolding nm cat rd vals = some h →
      1000 < h.current_investment_value ∧ 1000 < h.current_market_value) ∧
    (∀ nm row cat rd pcol idt h, kotakRowEmit nm row cat rd pcol idt = some h →
      1000 < h.current_market_value) ∧
    (∀ rd row h, motilalEquityRow rd row = some h → 0 < h.current_market_value) ∧
    (∀ rd row h, motilalAifRow rd row = some h → 0 < h.current_market_value) := by
  refine ⟨?_, ?_, ?_, ?_, ?_, ?_, ?_, ?_, ?_⟩
  · intro row rate rdate dates h hrate hsome
    simp only [indmoneyProcessRow] at hsome
    split at hsome
    · simp at hsome
    · split at hsome
      · simp at hsome
      · obtain ⟨hgate, hrec⟩ := Option.ite_none_right_eq_some.mp hsome
        obtain rfl := Option.some.inj hrec
        rcases (indScan_inv row 0 0 0 (Or.inl rfl) (Or.inl rfl)).1 with h0 | h100
        · rw [h0] at hgate
          simp at hgate
        · exact mul_lt_mul_of_pos_right h100 hrate
  · intro fn rd idt dpos vals h hsome
    simp only [caTextHolding] at hsome
    obtain ⟨hgate, hrec⟩ := Option.ite_none_right_eq_some.mp hsome
    obtain rfl := Option.some.inj hrec
    exact hgate
  · intro rd ex row h hsome
    simp only [caTableRow] at hsome
    split at hsome
    · simp at hsome
    · split at hsome
      · simp at hsome
      · split at hsome
        · simp at hsome
        · split at hsome <;> split at hsome <;>
          · obtain ⟨hgate, hrest⟩ := Option.ite_none_right_eq_some.mp hsome
            obtain ⟨hdup, hrec⟩ := Option.ite_none_left_eq_some.mp hrest
            obtain rfl := Option.some.inj hrec
            exact hgate
  · intro cat fn rd inv cur h hsome
    simp only [ybIndividualHolding] at hsome
    obtain ⟨hgate, hrec⟩ := Option.ite_none_right_eq_some.mp hsome
    obtain rfl := Option.some.inj hrec
    exact hgate
  · intro cat fn rd s1 s2 h hsome
    simp only [ybSimpleHolding] at hsome
    obtain ⟨hgate, hrec⟩ := Option.ite_none_right_eq_some.mp hsome
    obtain rfl := Option.some.inj hrec
    exact ⟨hgate.1, hgate.2.1⟩
  · intro nm cat rd vals h hsome
    simp only [iiflHolding] at hsome
    split at hsome
    · obtain ⟨hgate, hrec⟩ := Option.ite_none_right_eq_some.mp hsome
      obtain rfl := Option.some.inj hrec
      exact ⟨hgate.1, hgate.2.1⟩
    · simp at hsome
  · intro nm row cat rd pcol idt h hsome
    simp only [kotakRowEmit] at hsome
    split at hsome
    · obtain ⟨hgt, hrec⟩ := Option.ite_none_right_eq_some.mp hsome
      obtain rfl := Option.some.inj hrec
      exact hgt
    · simp at hsome
  · intro rd row h hsome
    simp only [motilalEquityRow] at hsome
    split at hsome
    · simp at hsome
    · split at hsome
      · simp at hsome
      · obtain ⟨hgate, hrec⟩ := Option.ite_none_right_eq_some.mp hsome
        obtain rfl := Option.some.inj hrec
        exact hgate
  · intro rd row h hsome
    simp only [motilalAifRow] at hsome
    split at hsome
    · simp at hsome
    · split at hsome
      · simp at hsome
      · obtain ⟨hgate, hrec⟩ := Option.ite_none_right_eq_some.mp hsome
        obtain rfl := Option.some.inj hrec
        exact hgate

/-- The Client Associates text-path holding used by the C9 witness. -/
def exCaTextHolding : Holding :=
  { manager_name := "Client Associates", asset_type := "AIF", asset_name := "Alpha Fund",
    value_as_of_date := "2025-08-31", investment_date := "2021-02-01",
    current_investment_value := 2000, current_market_value := 5000,
    pl_amount := 3000, pl_percentage := 150, irr_percentage := 0 }

/-- Witness for C9 (amended) at a concrete Client Associates text row. -/
theorem materiality_market_value_thresholds_witness :
    1000 < exCaTextHolding.current_investment_value ∧
    1000 < exCaTextHolding.current_market_value :=
  materiality_market_value_thresholds.2.1 "Alpha Fund" "2025-08-31" "2021-02-01" true
    [10, 5, 2000, 7, 5000] exCaTextHolding (by with_unfolding_all rfl)
